import Mathlib

/-!
Verification development for the Amazon Price Converter userscript
(IceCuBear/AmazonPriceConverter).

The embedding follows the current script (`src/unnamed/part_000`,
version 2025.12.11.6); the legacy script `src/AmazonPriceConverter.user.js`
contains earlier versions of the same functions and is noted where the two
differ.  Conventions of the shallow embedding:

* JavaScript numbers are modelled as `ℚ`.  All numeric inputs reaching the
  code's arithmetic are decimal strings or JSON numbers, hence exact
  rationals; `NaN` is modelled as `Option.none` (`JsNum := Option ℚ`), and
  the `Infinity` literal of `parseFloat` is not modelled (no claim depends
  on it).  `isFinite` on a JSON-derived number is always true in this model.
* `parseFloat` is modelled by `jsParseFloatChars`: leading whitespace,
  optional sign, decimal significand, optional exponent, longest valid
  numeric literal as a prefix, `none` when no digits are found.
* Fallible operations return `Option`.
-/

set_option maxHeartbeats 1000000

attribute [local semireducible] Rat.ofScientific Rat.mul Rat.inv Rat.add Rat.sub

/-- A JavaScript number that may be `NaN` (`none`). -/
abbrev JsNum := Option ℚ

/-- Value of a list of decimal digit characters, most significant first. -/
def digitsToNat (l : List Char) : Nat :=
  l.foldl (fun n c => n * 10 + (c.toNat - '0'.toNat)) 0

/-- Sign handling of `parseFloat`: an optional leading `+` or `-`. -/
def jsSign : List Char → ℚ × List Char
  | [] => (1, [])
  | c :: t => if c = '-' then (-1, t) else if c = '+' then (1, t) else (1, c :: t)

/-- Exponent handling of `parseFloat`: `e`/`E`, optional sign, digits.
An exponent marker not followed by digits is ignored (as in JS, where the
longest valid literal prefix wins). -/
def jsExpVal : List Char → Int
  | [] => 0
  | c :: t =>
    if c = 'e' ∨ c = 'E' then
      let st : Int × List Char :=
        match t with
        | [] => (1, [])
        | d :: r => if d = '-' then (-1, r) else if d = '+' then (1, r) else (1, d :: r)
      let ds := st.2.takeWhile Char.isDigit
      if ds.isEmpty then 0 else st.1 * (digitsToNat ds : Int)
    else 0

/-- Apply a decimal exponent to a rational mantissa. -/
def applyExp (m : ℚ) (e : Int) : ℚ :=
  if 0 ≤ e then m * (10 : ℚ) ^ e.toNat else m / (10 : ℚ) ^ (-e).toNat

/-- Model of JavaScript `parseFloat` on a character list: skip leading
whitespace, optional sign, digits, optional `.` plus digits, optional
exponent; `none` models `NaN` (no digit in the significand). -/
def jsParseFloatChars (cs : List Char) : Option ℚ :=
  let cs1 := cs.dropWhile Char.isWhitespace
  let p := jsSign cs1
  let ip := p.2.takeWhile Char.isDigit
  let r1 := p.2.dropWhile Char.isDigit
  let q : List Char × List Char :=
    match r1 with
    | [] => ([], [])
    | c :: t => if c = '.' then (t.takeWhile Char.isDigit, t.dropWhile Char.isDigit) else ([], c :: t)
  if ip.isEmpty ∧ q.1.isEmpty then none
  else some (p.1 * applyExp ((digitsToNat (ip ++ q.1) : ℚ) / (10 : ℚ) ^ q.1.length) (jsExpVal q.2))

/-- `parseFloat` on a string. -/
def jsParseFloat (s : String) : Option ℚ := jsParseFloatChars s.data

/-- `CLEAN_REGEX = /[^\d.,]/g`: the characters kept by the cleaning step. -/
def isPriceChar (c : Char) : Bool := c.isDigit || c = '.' || c = ','

/-- `str.replace(CLEAN_REGEX, '')` as a character list. -/
def cleanChars (s : String) : List Char := s.data.filter isPriceChar

/-- `String.prototype.lastIndexOf` for a single character, `none` for `-1`. -/
def lastIdxOf : List Char → Char → Option Nat
  | [], _ => none
  | a :: as, c =>
    match lastIdxOf as c with
    | some i => some (i + 1)
    | none => if a = c then some 0 else none

/-- `str.replace(c, r)` with a string pattern: replace the first occurrence
only. -/
def replaceFirst : List Char → Char → Char → List Char
  | [], _, _ => []
  | a :: as, c, r => if a = c then r :: as else a :: replaceFirst as c r

/-- The separator-normalization step of `parseStringValue` (the body between
the `lastIndexOf` computations and the final `parseFloat`):
if both `.` and `,` occur, the kind occurring last keeps the decimal role
(the other kind is stripped; when the comma wins, its first occurrence is
rewritten to `.`); if only a comma occurs, its first occurrence is rewritten
to `.`; otherwise the string is unchanged. -/
def normalizeChars (l : List Char) : List Char :=
  match lastIdxOf l '.', lastIdxOf l ',' with
  | some d, some c =>
      if d > c then l.filter (· != ',')
      else replaceFirst (l.filter (· != '.')) ',' '.'
  | none, some _ => replaceFirst l ',' '.'
  | _, _ => l

/-- `parseStringValue(str)` from the userscript: reject falsy strings and
strings without a digit, clean to digits/dots/commas, normalize the decimal
separator, `parseFloat`, and map `NaN` to `null` (`none`). -/
def parseStringValue (s : String) : Option ℚ :=
  if s = "" then none
  else if s.data.any Char.isDigit then jsParseFloatChars (normalizeChars (cleanChars s))
  else none

/-! ### Claim-side normalization (C1)

`specNormalizeChars` is written from the specification's words, to be
compared with `normalizeChars` from the source: the separator kind occurring
last is the decimal point, the other kind is stripped as a thousands
separator, and a decimal comma is *converted to a period* (every comma is
rewritten, rather than only the first occurrence as the source does; the two
agree because `parseFloat` stops at the second separator either way). -/

/-- Rewrite a comma to a period, in the sense of the specification's
"converted to a period". -/
def commaToDot (c : Char) : Char := if c = ',' then '.' else c

/-- Decimal-separator disambiguation as the specification words it. -/
def specNormalizeChars (l : List Char) : List Char :=
  match lastIdxOf l '.', lastIdxOf l ',' with
  | some d, some c =>
      if d > c then l.filter (· != ',')
      else (l.filter (· != '.')).map commaToDot
  | none, some _ => l.map commaToDot
  | _, _ => l

/-- The parser as the specification describes it: reject digit-free input,
clean, disambiguate per `specNormalizeChars`, parse as a float. -/
def specParseStringValue (s : String) : Option ℚ :=
  if s.data.any Char.isDigit then jsParseFloatChars (specNormalizeChars (cleanChars s))
  else none

/-! ### Helper lemmas about character lists -/

theorem digit_not_special {c : Char} (h : c.isDigit) :
    c ≠ '-' ∧ c ≠ '+' ∧ c ≠ '.' ∧ c ≠ ',' ∧ ¬ c.isWhitespace ∧ c ≠ 'e' ∧ c ≠ 'E' := by
  refine ⟨?_, ?_, ?_, ?_, ?_, ?_, ?_⟩
  case _ => intro hc; subst hc; exact absurd h (by decide)
  case _ => intro hc; subst hc; exact absurd h (by decide)
  case _ => intro hc; subst hc; exact absurd h (by decide)
  case _ => intro hc; subst hc; exact absurd h (by decide)
  case _ =>
    intro hw
    have h2 : c = ' ' ∨ c = '\t' ∨ c = '\r' ∨ c = '\n' := by
      simp only [Char.isWhitespace, Bool.or_eq_true, decide_eq_true_iff] at hw
      tauto
    rcases h2 with h2 | h2 | h2 | h2 <;> (subst h2; exact absurd h (by decide))
  case _ => intro hc; subst hc; exact absurd h (by decide)
  case _ => intro hc; subst hc; exact absurd h (by decide)

theorem replaceFirst_not_mem {l : List Char} {c r : Char} (h : c ∉ l) :
    replaceFirst l c r = l := by
  induction l with
  | nil => rfl
  | cons a as ih =>
      simp only [List.mem_cons, not_or] at h
      simp [replaceFirst, Ne.symm h.1, ih h.2]

theorem map_commaToDot_of_no_comma {l : List Char} (h : ',' ∉ l) :
    l.map commaToDot = l := by
  induction l with
  | nil => rfl
  | cons a as ih =>
      simp only [List.mem_cons, not_or] at h
      simp [commaToDot, Ne.symm h.1, ih h.2]

theorem exists_first_comma {l : List Char} (h : ',' ∈ l) :
    ∃ a b, l = a ++ ',' :: b ∧ ',' ∉ a := by
  induction l with
  | nil => cases h
  | cons x xs ih =>
      by_cases hx : x = ','
      · exact ⟨[], xs, by simp [hx], by simp⟩
      · have hm : ',' ∈ xs := by
          rcases List.mem_cons.mp h with h1 | h1
          · exact absurd h1.symm hx
          · exact h1
        rcases ih hm with ⟨a, b, hab, ha⟩
        refine ⟨x :: a, b, by simp [hab], ?_⟩
        simp only [List.mem_cons, not_or]
        exact ⟨fun hc => hx hc.symm, ha⟩

theorem replaceFirst_append {a b : List Char} (ha : ',' ∉ a) :
    replaceFirst (a ++ ',' :: b) ',' '.' = a ++ '.' :: b := by
  induction a with
  | nil => simp [replaceFirst]
  | cons x xs ih =>
      simp only [List.mem_cons, not_or] at ha
      simp [replaceFirst, Ne.symm ha.1, ih ha.2]

theorem takeWhile_append_of_all {p : Char → Bool} {a : List Char} {x : Char} {b : List Char}
    (ha : ∀ c ∈ a, p c) (hx : ¬ p x) :
    (a ++ x :: b).takeWhile p = a ∧ (a ++ x :: b).dropWhile p = x :: b := by
  induction a with
  | nil => simp [List.takeWhile, List.dropWhile, hx]
  | cons y ys ih =>
      have hy : p y := ha y (by simp)
      have := ih (fun c hc => ha c (by simp [hc]))
      simp [List.takeWhile, List.dropWhile, hy, this.1, this.2]

theorem takeWhile_map_commaToDot (b : List Char) :
    (b.map commaToDot).takeWhile Char.isDigit = b.takeWhile Char.isDigit ∧
      (b.map commaToDot).dropWhile Char.isDigit = (b.dropWhile Char.isDigit).map commaToDot := by
  induction b with
  | nil => simp
  | cons x xs ih =>
      have hdig : (commaToDot x).isDigit = x.isDigit := by
        by_cases hx : x = ',' <;> simp [commaToDot, hx]
      by_cases hd : x.isDigit
      · have hxne : x ≠ ',' := (digit_not_special hd).2.2.2.1
        simp [List.takeWhile, List.dropWhile, hdig, hd, commaToDot, hxne, ih.1, ih.2]
      · simp [List.takeWhile, List.dropWhile, hdig, hd]

theorem dropWhile_head_not {p : Char → Bool} {l r : List Char} {x : Char}
    (h : l.dropWhile p = x :: r) : ¬ p x ∧ x ∈ l := by
  induction l with
  | nil => simp [List.dropWhile] at h
  | cons y ys ih =>
      by_cases hy : p y
      · rw [List.dropWhile_cons_of_pos hy] at h
        rcases ih h with ⟨h1, h2⟩
        exact ⟨h1, by simp [h2]⟩
      · rw [List.dropWhile_cons_of_neg (by simpa using hy)] at h
        cases h
        exact ⟨by simpa using hy, by simp⟩

theorem lastIdxOf_eq_none {l : List Char} {c : Char} (h : lastIdxOf l c = none) : c ∉ l := by
  induction l with
  | nil => simp
  | cons a as ih =>
      rcases hm : lastIdxOf as c with _ | i
      · simp only [lastIdxOf, hm] at h
        by_cases hac : a = c
        · simp [hac] at h
        · simp only [List.mem_cons, not_or]
          exact ⟨fun hc => hac hc.symm, ih hm⟩
      · simp only [lastIdxOf, hm] at h
        exact absurd h (Option.some_ne_none _)

/-! ### The key comparison lemma for C1 -/

/-- On a string of digits and commas, replacing only the first comma by a
period (the source) and replacing every comma by a period (the
specification's "converted to a period") parse to the same float: the parse
stops at the second separator occurrence either way. -/
theorem jsParseFloatChars_replaceFirst_eq_map {l : List Char}
    (h : ∀ c ∈ l, c.isDigit ∨ c = ',') :
    jsParseFloatChars (replaceFirst l ',' '.') = jsParseFloatChars (l.map commaToDot) := by
  by_cases hmem : ',' ∈ l
  · rcases exists_first_comma hmem with ⟨a, b, rfl, ha⟩
    have hadig : ∀ c ∈ a, c.isDigit := by
      intro c hc
      rcases h c (by simp [hc]) with h1 | h1
      · exact h1
      · exact absurd (h1 ▸ hc) ha
    have hbdc : ∀ c ∈ b, c.isDigit ∨ c = ',' := fun c hc => h c (by simp [hc])
    rw [replaceFirst_append ha, List.map_append, map_commaToDot_of_no_comma ha]
    show jsParseFloatChars (a ++ '.' :: b) = jsParseFloatChars (a ++ '.' :: b.map commaToDot)
    have hnws : ∀ (b' : List Char), (a ++ '.' :: b').dropWhile Char.isWhitespace = a ++ '.' :: b' := by
      intro b'
      cases a with
      | nil => simp [List.dropWhile]
      | cons y ys =>
          have := (digit_not_special (hadig y (by simp))).2.2.2.2.1
          simp [List.dropWhile, this]
    have hsign : ∀ (b' : List Char), jsSign (a ++ '.' :: b') = (1, a ++ '.' :: b') := by
      intro b'
      cases a with
      | nil => simp [jsSign]
      | cons y ys =>
          have hy := digit_not_special (hadig y (by simp))
          simp [jsSign, hy.1, hy.2.1]
    have htw : ∀ (b' : List Char),
        (a ++ '.' :: b').takeWhile Char.isDigit = a ∧
          (a ++ '.' :: b').dropWhile Char.isDigit = '.' :: b' :=
      fun b' => takeWhile_append_of_all hadig (by decide)
    have hmaptw := takeWhile_map_commaToDot b
    simp only [jsParseFloatChars, hnws, hsign, (htw b).1, (htw b).2,
      (htw (b.map commaToDot)).1, (htw (b.map commaToDot)).2]
    simp only [hmaptw.1, hmaptw.2]
    rcases hdrop : b.dropWhile Char.isDigit with _ | ⟨x, t⟩
    · simp
    · have hx := dropWhile_head_not hdrop
      have hxc : x = ',' := by
        rcases hbdc x hx.2 with h1 | h1
        · exact absurd h1 hx.1
        · exact h1
      subst hxc
      simp [jsExpVal, commaToDot]
  · rw [replaceFirst_not_mem hmem, map_commaToDot_of_no_comma hmem]

/-! ### C1 -/

theorem parseStringValue_eq_specParse (s : String) :
    parseStringValue s = specParseStringValue s := by
  unfold parseStringValue specParseStringValue
  by_cases hs : s = ""
  · subst hs; simp [String.data]
  · simp only [if_neg hs]
    by_cases hd : s.data.any Char.isDigit
    · simp only [if_pos hd]
      have hclean : ∀ c ∈ cleanChars s, isPriceChar c := by
        intro c hc
        exact (List.mem_filter.mp hc).2
      unfold normalizeChars specNormalizeChars
      rcases hdot : lastIdxOf (cleanChars s) '.' with _ | d <;>
        rcases hcom : lastIdxOf (cleanChars s) ',' with _ | c
      · rfl
      · have hnodot := lastIdxOf_eq_none hdot
        exact jsParseFloatChars_replaceFirst_eq_map (by
          intro x hx
          have := hclean x hx
          simp only [isPriceChar, Bool.or_eq_true, decide_eq_true_iff] at this
          rcases this with (h1 | h1) | h1
          · exact Or.inl h1
          · exact absurd (h1 ▸ hx) hnodot
          · exact Or.inr h1)
      · rfl
      · by_cases hdc : d > c
        · simp [hdc]
        · simp only [if_neg hdc]
          exact jsParseFloatChars_replaceFirst_eq_map (by
            intro x hx
            rcases List.mem_filter.mp hx with ⟨hx1, hx2⟩
            have := hclean x hx1
            simp only [isPriceChar, Bool.or_eq_true, decide_eq_true_iff] at this
            rcases this with (h1 | h1) | h1
            · exact Or.inl h1
            · simp [h1] at hx2
            · exact Or.inr h1)
    · rw [if_neg hd, if_neg hd]

/-- C1: on input whose cleaned form (digits, dots, commas) contains both `.`
and `,`, `parseStringValue` treats the separator kind occurring last as the
decimal point and strips the other kind as a thousands separator; a lone
comma is treated as the decimal point and converted to a period; a lone
period, or no separator, is left untouched (`specParseStringValue` is that
normalization written from the specification); in particular
`parse("1.234,56") = 1234.56` and `parse("1,234.56") = 1234.56`. -/
theorem parseStringValue_separator_disambiguation :
    (∀ s : String, parseStringValue s = specParseStringValue s) ∧
      parseStringValue "1.234,56" = some ((1234.56 : ℚ)) ∧
      parseStringValue "1,234.56" = some ((1234.56 : ℚ)) :=
  ⟨parseStringValue_eq_specParse, by decide, by decide⟩

/-! ### C8 -/

/-- C8: `parseStringValue` fails closed: an input without a digit character
yields `none` (not zero), an input whose normalized form does not parse as a
number yields `none`, and in particular `""`, `"abc"` and `"FREE"` all yield
`none`. -/
theorem parseStringValue_fails_closed :
    (∀ s : String, (∀ c ∈ s.data, ¬ c.isDigit) → parseStringValue s = none) ∧
      (∀ s : String, jsParseFloatChars (normalizeChars (cleanChars s)) = none →
        parseStringValue s = none) ∧
      parseStringValue "" = none ∧ parseStringValue "abc" = none ∧
      parseStringValue "FREE" = none := by
  refine ⟨?_, ?_, by decide, by decide, by decide⟩
  · intro s h
    unfold parseStringValue
    have : s.data.any Char.isDigit = false := by
      simp only [List.any_eq_false]
      intro c hc
      simpa using h c hc
    simp [this]
  · intro s h
    unfold parseStringValue
    split
    · rfl
    · simp [h]

/-- Witness for C8 at concrete inputs. -/
theorem parseStringValue_fails_closed_witness :
    parseStringValue "x-y" = none ∧ parseStringValue "..5" = none :=
  ⟨parseStringValue_fails_closed.1 "x-y" (by decide),
   parseStringValue_fails_closed.2.1 "..5" (by decide)⟩

/-! ## RateProvider: `getExchangeRate` (current script, §3 of the source)

The function takes explicit inputs for everything the JavaScript reads from
its environment: the clock (`now = Date.now()`), the `GM_getValue` storage,
and the outcome of the single `GM_xmlhttpRequest`.  It returns the resolved
value, the storage after the call, and whether the outbound request was
issued.  The promise never rejects; correspondingly the model is a total
function. -/

/-- `String.prototype.toUpperCase` (ASCII, as used for ISO codes and the
"FREE" comparison). -/
def jsToUpper (s : String) : String := String.mk (s.data.map Char.toUpper)

/-- A `rates` table from the JSON response body: ISO code → number.
JSON numeric literals are finite, so `isFinite` holds for every entry. -/
abbrev RateTable := List (String × ℚ)

/-- JavaScript object lookup `tbl[k]`; `none` models `undefined`. -/
def tblGet (t : RateTable) (k : String) : Option ℚ :=
  (t.find? (fun p => p.1 == k)).map (fun p => p.2)

/-- The two GM storage families used by `getExchangeRate`:
`apc_rates_` + base and `apc_rates_ts_` + base. -/
structure FxStore where
  rates : List (String × RateTable)
  ts : List (String × Int)
  deriving DecidableEq

/-- `GM_getValue(KV.lastRates + base, null)`. -/
def FxStore.ratesFor (st : FxStore) (base : String) : Option RateTable :=
  (st.rates.find? (fun p => p.1 == base)).map (fun p => p.2)

/-- `GM_getValue(KV.lastUpdate + base, 0)`. -/
def FxStore.tsFor (st : FxStore) (base : String) : Int :=
  ((st.ts.find? (fun p => p.1 == base)).map (fun p => p.2)).getD 0

/-- `GM_setValue(ratesKey, rates)`: overwrite the entry for `base`. -/
def FxStore.setRates (st : FxStore) (base : String) (t : RateTable) : FxStore :=
  { st with rates := (base, t) :: st.rates }

/-- `GM_setValue(tsKey, now)`: overwrite the timestamp for `base`. -/
def FxStore.setTs (st : FxStore) (base : String) (n : Int) : FxStore :=
  { st with ts := (base, n) :: st.ts }

/-- `FX_CACHE_MS = 12 * 60 * 60 * 1000`. -/
def FX_CACHE_MS : Int := 12 * 60 * 60 * 1000

/-- Outcome of the `GM_xmlhttpRequest`: `netError` is the `onerror` callback;
`malformed` is a body on which `JSON.parse` throws; `ok none` is a parsed
body that is falsy or lacks a truthy `rates` field; `ok (some tbl)` carries
`data.rates`. -/
inductive FetchResponse where
  | netError
  | malformed
  | ok (rates : Option RateTable)
  deriving DecidableEq

/-- The network branch of `getExchangeRate`: the promise around
`GM_xmlhttpRequest` with its `onload`/`onerror` handlers.  The `onload`
validation is `rates && rates[targetIso] && isFinite(rates[targetIso])`:
on a JSON number, truthiness is `≠ 0` and finiteness always holds, so a
nonzero rate of either sign is accepted, stored (whole table plus
timestamp) and resolved; every other outcome resolves 0. -/
def fxFetch (base target : String) (now : Int) (st : FxStore)
    (resp : FetchResponse) : ℚ × FxStore × Bool :=
  match resp with
  | .netError => (0, st, true)
  | .malformed => (0, st, true)
  | .ok none => (0, st, true)
  | .ok (some tbl) =>
    match tblGet tbl target with
    | some q =>
        if q ≠ 0 then (q, (st.setRates base tbl).setTs base now, true)
        else (0, st, true)
    | none => (0, st, true)

/-- `getExchangeRate(baseIso, targetIso)`: uppercase both codes, return 1 on
an identity pair, serve a fresh cached entry (rate returned only when
truthy, finite and positive, else 0 — with no request), and otherwise fetch.
The third component records whether the request was issued. -/
def getExchangeRate (baseIso targetIso : String) (now : Int) (st : FxStore)
    (resp : FetchResponse) : ℚ × FxStore × Bool :=
  let base := jsToUpper baseIso
  let target := jsToUpper targetIso
  if base = target then (1, st, false)
  else
    match st.ratesFor base with
    | some tbl =>
        if now - st.tsFor base < FX_CACHE_MS then
          match tblGet tbl target with
          | some q => if 0 < q then (q, st, false) else (0, st, false)
          | none => (0, st, false)
        else fxFetch base target now st resp
    | none => fxFetch base target now st resp

/-- The request flag of the network branch is always set. -/
theorem fxFetch_fetched (base target : String) (now : Int) (st : FxStore)
    (resp : FetchResponse) : (fxFetch base target now st resp).2.2 = true := by
  rcases resp with _ | _ | ⟨_ | tbl⟩ <;>
    first
      | rfl
      | (rcases h : tblGet tbl target with _ | q
         · simp [fxFetch, h]
         · by_cases hq : q = 0 <;> simp [fxFetch, h, hq])

/-- When the pair is not an identity and the cache gives no fresh entry,
`getExchangeRate` runs its network branch. -/
theorem getExchangeRate_eq_fxFetch {b t : String} {now : Int} {st : FxStore}
    (resp : FetchResponse) (hne : (jsToUpper b) ≠ (jsToUpper t))
    (hmiss : st.ratesFor (jsToUpper b) = none ∨ FX_CACHE_MS ≤ now - st.tsFor (jsToUpper b)) :
    getExchangeRate b t now st resp = fxFetch (jsToUpper b) (jsToUpper t) now st resp := by
  unfold getExchangeRate
  rw [if_neg hne]
  rcases hr : st.ratesFor (jsToUpper b) with _ | tbl
  · rfl
  · rcases hmiss with hmiss | hmiss
    · rw [hr] at hmiss; exact absurd hmiss (by simp)
    · dsimp only
      rw [if_neg (not_lt.mpr hmiss)]

/-- Updated-store lookups: the freshly written table is found. -/
theorem FxStore.ratesFor_set (st : FxStore) (b : String) (tbl : RateTable) (n : Int) :
    ((st.setRates b tbl).setTs b n).ratesFor b = some tbl := by
  simp [FxStore.ratesFor, FxStore.setRates, FxStore.setTs, List.find?]

/-- Updated-store lookups: the freshly written timestamp is found. -/
theorem FxStore.tsFor_set (st : FxStore) (b : String) (tbl : RateTable) (n : Int) :
    ((st.setRates b tbl).setTs b n).tsFor b = n := by
  simp [FxStore.tsFor, FxStore.setRates, FxStore.setTs, List.find?]

/-! ### C3 -/

/-- C3 counterexample: with an empty cache, a response whose only rate for
the target is negative — a response lacking a valid (finite *positive*) rate
— is not treated as a failure: `getExchangeRate` resolves with the negative
rate instead of the sentinel 0. -/
theorem getExchangeRate_negative_rate_not_zero :
    (getExchangeRate "EUR" "HUF" 3 ⟨[], []⟩ (.ok (some [("HUF", -3)]))).1 = -3 ∧
      ((-3 : ℚ) ≠ 0) ∧ ¬ (0 < (-3 : ℚ)) :=
  ⟨by decide, by decide, by decide⟩

/-- C3 (amended): when the request is actually issued (non-identity pair and
no fresh cache entry) and it fails — network error, malformed body, missing
`rates` object, or a target rate that is missing or zero (falsy; a negative
rate is *not* treated as a failure) — `getExchangeRate` resolves with the
sentinel 0, never throws (it is total), and does not fall back to a stale
cached value: the storage is unchanged and the result is 0 whatever stale
entry it holds. -/
theorem getExchangeRate_failure_resolves_zero (b t : String) (now : Int) (st : FxStore)
    (hne : (jsToUpper b) ≠ (jsToUpper t))
    (hmiss : st.ratesFor (jsToUpper b) = none ∨ FX_CACHE_MS ≤ now - st.tsFor (jsToUpper b)) :
    getExchangeRate b t now st .netError = (0, st, true) ∧
    getExchangeRate b t now st .malformed = (0, st, true) ∧
    getExchangeRate b t now st (.ok none) = (0, st, true) ∧
    (∀ tbl : RateTable, tblGet tbl (jsToUpper t) = none ∨ tblGet tbl (jsToUpper t) = some 0 →
      getExchangeRate b t now st (.ok (some tbl)) = (0, st, true)) := by
  refine ⟨?_, ?_, ?_, ?_⟩
  · rw [getExchangeRate_eq_fxFetch _ hne hmiss]; rfl
  · rw [getExchangeRate_eq_fxFetch _ hne hmiss]; rfl
  · rw [getExchangeRate_eq_fxFetch _ hne hmiss]; rfl
  · intro tbl htbl
    rw [getExchangeRate_eq_fxFetch _ hne hmiss]
    rcases htbl with htbl | htbl <;> simp [fxFetch, htbl]

/-- Witness for C3: an actual stale entry is present, the network errors out,
and the call resolves 0 with the stale entry untouched and unused. -/
theorem getExchangeRate_failure_resolves_zero_witness :
    getExchangeRate "EUR" "HUF" 9 ⟨[("EUR", [("HUF", 5)])], [("EUR", -99999999)]⟩ .netError =
      (0, ⟨[("EUR", [("HUF", 5)])], [("EUR", -99999999)]⟩, true) :=
  (getExchangeRate_failure_resolves_zero "EUR" "HUF" 9
      ⟨[("EUR", [("HUF", 5)])], [("EUR", -99999999)]⟩ (by decide) (Or.inr (by decide))).1

/-! ### C4 -/

/-- C4 counterexample: a fresh cached EUR table that lacks the HUF rate puts
the call in the claim's "every other case", yet no outbound request is
issued (third component `false`): the call short-circuits to 0 from the
fresh cache. -/
theorem getExchangeRate_fresh_cache_no_fetch_counterexample :
    getExchangeRate "EUR" "HUF" 5 ⟨[("EUR", [("USD", 11/10)])], [("EUR", 0)]⟩ .netError =
        (0, ⟨[("EUR", [("USD", 11/10)])], [("EUR", 0)]⟩, false) ∧
      jsToUpper "EUR" ≠ jsToUpper "HUF" ∧
      (FxStore.ratesFor ⟨[("EUR", [("USD", 11/10)])], [("EUR", 0)]⟩ "EUR").isSome ∧
      (5 - FxStore.tsFor ⟨[("EUR", [("USD", 11/10)])], [("EUR", 0)]⟩ "EUR") < FX_CACHE_MS ∧
      tblGet [("USD", 11/10)] "HUF" = none :=
  ⟨by decide, by decide, by decide, by decide, by decide⟩

/-- C4 (amended): `getExchangeRate` returns 1 with no request and untouched
storage when the uppercased codes coincide; a fresh cached entry holding a
finite positive rate for the target is returned with no request; and —
correcting the claim — the single outbound request is issued exactly when
the cached entry is absent or stale: a fresh entry without a usable target
rate resolves 0 *without* fetching. -/
theorem getExchangeRate_cache_fetch_policy (b t : String) (now : Int) (st : FxStore)
    (resp : FetchResponse) :
    ((jsToUpper b) = (jsToUpper t) → getExchangeRate b t now st resp = (1, st, false)) ∧
    (∀ (tbl : RateTable) (q : ℚ), (jsToUpper b) ≠ (jsToUpper t) →
      st.ratesFor (jsToUpper b) = some tbl → now - st.tsFor (jsToUpper b) < FX_CACHE_MS →
      tblGet tbl (jsToUpper t) = some q → 0 < q →
      getExchangeRate b t now st resp = (q, st, false)) ∧
    ((jsToUpper b) ≠ (jsToUpper t) →
      ((getExchangeRate b t now st resp).2.2 = true ↔
        st.ratesFor (jsToUpper b) = none ∨ FX_CACHE_MS ≤ now - st.tsFor (jsToUpper b))) := by
  refine ⟨?_, ?_, ?_⟩
  · intro h
    unfold getExchangeRate
    rw [if_pos h]
  · intro tbl q hne hc hf hq hpos
    unfold getExchangeRate
    rw [if_neg hne, hc]
    dsimp only
    rw [if_pos hf, hq]
    dsimp only
    rw [if_pos hpos]
  · intro hne
    unfold getExchangeRate
    rw [if_neg hne]
    rcases hr : st.ratesFor (jsToUpper b) with _ | tbl
    · simp [fxFetch_fetched]
    · dsimp only
      by_cases hf : now - st.tsFor (jsToUpper b) < FX_CACHE_MS
      · rw [if_pos hf]
        have hrhs : ¬ ((none : Option RateTable) = none ∧ False) := by simp
        rcases hq : tblGet tbl (jsToUpper t) with _ | q
        · simp [hf, not_le.mpr hf]
        · dsimp only
          by_cases hp : 0 < q
          · rw [if_pos hp]; simp [not_le.mpr hf]
          · rw [if_neg hp]; simp [not_le.mpr hf]
      · rw [if_neg hf]
        simp [fxFetch_fetched, not_lt.mp hf]

/-- Witness for C4: an identity pair resolves to 1 immediately, independent
of cache contents and of the (failing) network. -/
theorem getExchangeRate_cache_fetch_policy_witness :
    getExchangeRate "huf" "HUF" 0 ⟨[], []⟩ .netError = (1, ⟨[], []⟩, false) :=
  (getExchangeRate_cache_fetch_policy "huf" "HUF" 0 ⟨[], []⟩ .netError).1 (by decide)

/-! ### C5 -/

/-- C5 counterexample: the fetch path accepts and stores a *negative* target
rate — the `onload` validation checks only truthiness and finiteness, not
positivity — contradicting "validates that the response contains a finite
positive numeric rate". -/
theorem getExchangeRate_accepts_negative_rate :
    getExchangeRate "EUR" "HUF" 7 ⟨[], []⟩ (.ok (some [("HUF", -2)])) =
      (-2, ⟨[("EUR", [("HUF", -2)])], [("EUR", 7)]⟩, true) ∧ (-2 : ℚ) < 0 :=
  ⟨by decide, by decide⟩

/-- C5 (amended): on a successful fetch, `getExchangeRate` validates that
the response has a *truthy, finite* rate for the target (not positivity: a
negative rate passes), stores the entire returned table keyed by the
uppercased base together with the current timestamp, and resolves with the
target rate; a later request for a different target under the same base
within the cache window is then served from the cache with no further
request. -/
theorem getExchangeRate_success_caches_table (b t : String) (now : Int) (st : FxStore)
    (tbl : RateTable) (q : ℚ)
    (hne : (jsToUpper b) ≠ (jsToUpper t))
    (hmiss : st.ratesFor (jsToUpper b) = none ∨ FX_CACHE_MS ≤ now - st.tsFor (jsToUpper b))
    (hq : tblGet tbl (jsToUpper t) = some q) (hq0 : q ≠ 0) :
    getExchangeRate b t now st (.ok (some tbl)) =
      (q, (st.setRates (jsToUpper b) tbl).setTs (jsToUpper b) now, true) ∧
    (∀ (t2 : String) (now2 : Int) (q2 : ℚ) (resp2 : FetchResponse),
      (jsToUpper b) ≠ (jsToUpper t2) → now2 - now < FX_CACHE_MS →
      tblGet tbl (jsToUpper t2) = some q2 → 0 < q2 →
      getExchangeRate b t2 now2 ((st.setRates (jsToUpper b) tbl).setTs (jsToUpper b) now) resp2 =
        (q2, (st.setRates (jsToUpper b) tbl).setTs (jsToUpper b) now, false)) := by
  constructor
  · rw [getExchangeRate_eq_fxFetch _ hne hmiss]
    simp [fxFetch, hq, hq0]
  · intro t2 now2 q2 resp2 hne2 hf2 hq2 hp2
    exact (getExchangeRate_cache_fetch_policy b t2 now2
        ((st.setRates (jsToUpper b) tbl).setTs (jsToUpper b) now) resp2).2.1 tbl q2 hne2
      (FxStore.ratesFor_set st (jsToUpper b) tbl now)
      (by rw [FxStore.tsFor_set]; exact hf2) hq2 hp2

/-- Witness for C5: a fetched EUR table with HUF and USD rates is stored
whole; the follow-up USD request inside the window is served from the cache
with no request. -/
theorem getExchangeRate_success_caches_table_witness :
    getExchangeRate "EUR" "HUF" 1 ⟨[], []⟩ (.ok (some [("HUF", 400), ("USD", 11/10)])) =
      (400, ⟨[("EUR", [("HUF", 400), ("USD", 11/10)])], [("EUR", 1)]⟩, true) ∧
    getExchangeRate "EUR" "USD" 2 ⟨[("EUR", [("HUF", 400), ("USD", 11/10)])], [("EUR", 1)]⟩
        .netError =
      (11/10, ⟨[("EUR", [("HUF", 400), ("USD", 11/10)])], [("EUR", 1)]⟩, false) :=
  ⟨(getExchangeRate_success_caches_table "EUR" "HUF" 1 ⟨[], []⟩
      [("HUF", 400), ("USD", 11/10)] 400 (by decide) (Or.inl (by decide))
      (by decide) (by decide)).1,
   (getExchangeRate_success_caches_table "EUR" "HUF" 1 ⟨[], []⟩
      [("HUF", 400), ("USD", 11/10)] 400 (by decide) (Or.inl (by decide))
      (by decide) (by decide)).2 "USD" 2 (11/10) .netError (by decide) (by decide)
      (by decide) (by decide)⟩

/-! ## DOM model

A document is a tree of text nodes and elements.  Element identity (DOM
object references, by which `querySelectorAll` snapshots address live nodes)
is modelled by an optional numeric identifier: every element of a source
document carries a unique identifier, while the hint `span`s created by the
pass carry none — the script never re-addresses them (they are only ever
found again by their marker class).  `querySelectorAll` snapshots are lists
of identifiers in document (preorder) order; the steps of a pass look the
current node up by identifier, as the live-DOM callbacks do. -/

/-- Element data: identifier, tag name, class list, attributes. -/
structure EInfo where
  nid : Option Nat
  tag : String
  classes : List String
  attrs : List (String × String)
  deriving DecidableEq, Repr

/-- A DOM node. -/
inductive DNode where
  | text (s : String)
  | elem (info : EInfo) (children : List DNode)
  deriving Repr

/-- `element.getAttribute(name)`; `none` models `null`. -/
def EInfo.getAttr (i : EInfo) (name : String) : Option String :=
  (i.attrs.find? (fun p => p.1 == name)).map (fun p => p.2)

/-- `element.classList.contains(c)`. -/
def EInfo.hasClass (i : EInfo) (c : String) : Bool := i.classes.contains c

mutual

/-- `node.textContent`: concatenated text of the subtree in document order. -/
def textContent : DNode → String
  | .text s => s
  | .elem _ cs => textContentL cs

def textContentL : List DNode → String
  | [] => ""
  | c :: cs => textContent c ++ textContentL cs

end

mutual

/-- Element data of the subtree in document (preorder) order. -/
def infos : DNode → List EInfo
  | .text _ => []
  | .elem i cs => i :: infosL cs

def infosL : List DNode → List EInfo
  | [] => []
  | c :: cs => infos c ++ infosL cs

end

mutual

/-- First node matching `p` in preorder, the node itself included. -/
def findElem (p : EInfo → Bool) : DNode → Option DNode
  | .text _ => none
  | .elem i cs => if p i then some (.elem i cs) else findElemL p cs

def findElemL (p : EInfo → Bool) : List DNode → Option DNode
  | [] => none
  | c :: cs =>
    match findElem p c with
    | some e => some e
    | none => findElemL p cs

end

/-- `element.querySelector(sel)`: first matching proper descendant. -/
def qselFirst (p : EInfo → Bool) : DNode → Option DNode
  | .text _ => none
  | .elem _ cs => findElemL p cs

mutual

/-- Identifier of the parent of the first descendant matching `p`, walking
with the current parent's identifier: models
`el.querySelector(sel)?.parentNode` (the outer `none` = no match). -/
def parentOfMatch (p : EInfo → Bool) (pid : Option Nat) : DNode → Option (Option Nat)
  | .text _ => none
  | .elem i cs => if p i then some pid else parentOfMatchL p i.nid cs

def parentOfMatchL (p : EInfo → Bool) (pid : Option Nat) : List DNode → Option (Option Nat)
  | [] => none
  | c :: cs =>
    match parentOfMatch p pid c with
    | some r => some r
    | none => parentOfMatchL p pid cs

end

mutual

/-- Look a live element up by identifier (preorder first match). -/
def getById (n : Nat) : DNode → Option DNode
  | .text _ => none
  | .elem i cs => if i.nid = some n then some (.elem i cs) else getByIdL n cs

def getByIdL (n : Nat) : List DNode → Option DNode
  | [] => none
  | c :: cs =>
    match getById n c with
    | some e => some e
    | none => getByIdL n cs

end

/-- Identifiers of the elements satisfying `p`, in document order: the
static snapshot returned by `document.querySelectorAll`. -/
def collectIds (p : EInfo → Bool) (d : DNode) : List Nat :=
  ((infos d).filter p).filterMap (fun i => i.nid)

/-- `classList.add(c)` on the element data. -/
def addCls (c : String) (i : EInfo) : EInfo :=
  { i with classes := if i.classes.contains c then i.classes else i.classes ++ [c] }

mutual

/-- `classList.add(c)` on the element(s) with identifier `n`. -/
def addClassById (n : Nat) (c : String) : DNode → DNode
  | .text s => .text s
  | .elem i cs =>
      .elem (if i.nid = some n then addCls c i else i) (addClassByIdL n c cs)

def addClassByIdL (n : Nat) (c : String) : List DNode → List DNode
  | [] => []
  | d :: ds => addClassById n c d :: addClassByIdL n c ds

end

mutual

/-- `appendChild` of `h` on the element(s) with identifier `n`. -/
def appendChildById (n : Nat) (h : DNode) : DNode → DNode
  | .text s => .text s
  | .elem i cs =>
      let cs' := appendChildByIdL n h cs
      .elem i (if i.nid = some n then cs' ++ [h] else cs')

def appendChildByIdL (n : Nat) (h : DNode) : List DNode → List DNode
  | [] => []
  | d :: ds => appendChildById n h d :: appendChildByIdL n h ds

end

/-- Does the node's own element data carry identifier `n`? -/
def isElemWithId : DNode → Nat → Bool
  | .text _, _ => false
  | .elem i _, n => i.nid == some n

mutual

/-- `container.parentNode.insertBefore(h, container.nextSibling)`, with the
source's fallback `container.appendChild(h)` when the container is the root
and so has no parent. -/
def insertAfterById (n : Nat) (h : DNode) : DNode → DNode
  | .text s => .text s
  | .elem i cs =>
      if i.nid = some n then .elem i (cs ++ [h])
      else .elem i (insertAfterByIdL n h cs)

def insertAfterByIdL (n : Nat) (h : DNode) : List DNode → List DNode
  | [] => []
  | c :: cs =>
      if isElemWithId c n then insertAfterInChildren n h c :: h :: insertAfterByIdL n h cs
      else insertAfterInChildren n h c :: insertAfterByIdL n h cs

def insertAfterInChildren (n : Nat) (h : DNode) : DNode → DNode
  | .text s => .text s
  | .elem i cs => .elem i (insertAfterByIdL n h cs)

end

/-- Number of rendered hint nodes (marker class `apc-tag`) in the document. -/
def countHints (d : DNode) : Nat :=
  ((infos d).filter (fun i => i.hasClass "apc-tag")).length

/-! ## HintRenderer: `createHintElement` -/

/-- `baseValue * rate` with NaN propagation. -/
def jsMul (v : JsNum) (r : ℚ) : JsNum := v.map (fun q => q * r)

/-- The rendered inner text `(≈ ${formatted})`.  `formatCurrency` — an
`Intl.NumberFormat` built from the settings plus the suffix — is an external
collaborator and enters the model as the explicit function `fmt` from the
(possibly-NaN) product to its formatted string. -/
def hintText (fmt : JsNum → String) (v : JsNum) (rate : ℚ) : String :=
  "(≈ " ++ fmt (jsMul v rate) ++ ")"

/-- The observable outcome of `createHintElement`: inline font size and left
margin, rendered text, and the marker class. -/
structure HintSpan where
  fontSize : String
  marginLeft : String
  text : String
  marker : String
  deriving DecidableEq, Repr

/-- JavaScript falsiness of a `getAttribute` result (`null` or `""`). -/
def jsStrFalsy : Option String → Bool
  | none => true
  | some s => s == ""

/-- `createHintElement(baseValue, rate, contextElement)`.  The context
element enters through its tier signals: the `data-a-size` attribute value,
the class list, and whether
`contextElement.closest('#corePriceDisplay_desktop_feature_div')` is
non-null (`inPrimary`). -/
def createHintElement (fmt : JsNum → String) (baseValue : JsNum) (rate : ℚ)
    (dataASize : Option String) (classes : List String) (inPrimary : Bool) : HintSpan :=
  let sk1 :=
    if jsStrFalsy dataASize then
      if classes.contains "a-size-xl" then some "xl"
      else if classes.contains "a-size-large" then some "l"
      else if classes.contains "a-size-medium" then some "m"
      else if classes.contains "a-size-small" then some "s"
      else if classes.contains "a-size-mini" then some "mini"
      else dataASize
    else dataASize
  let sk2 := if inPrimary then some "xl" else sk1
  let fs0 :=
    if sk2 = some "xl" then "21px"
    else if sk2 = some "l" then "17px"
    else if sk2 = some "m" then "15px"
    else if sk2 = some "s" then "13px"
    else if sk2 = some "mini" then "11px"
    else "0.9em"
  let fs := if classes.contains "a-text-price" then "12px" else fs0
  let ml := if sk2 = some "xl" ∨ sk2 = some "l" then "8px" else "5px"
  { fontSize := fs, marginLeft := ml, text := hintText fmt baseValue rate, marker := "apc-tag" }

/-- The hint `span` as inserted into the document: marker class `apc-tag`,
no identifier (the script never re-addresses it), rendered text as the
single text child.  The inline styles are not part of the DOM model — no
selector of the pass reads them; `createHintElement` models them for the
renderer claim. -/
def mkHintNode (fmt : JsNum → String) (v : JsNum) (rate : ℚ) : DNode :=
  .elem ⟨none, "span", ["apc-tag"], []⟩ [.text (hintText fmt v rate)]

/-! ## PriceExtractor: `parsePriceFromComplexElement` -/

/-- `String.prototype.trim`. -/
def jsTrim (s : String) : String :=
  String.mk (((s.data.dropWhile Char.isWhitespace).reverse.dropWhile Char.isWhitespace).reverse)

/-- `whole.textContent.trim().replace(/[.,]/g, '')`. -/
def stripGroupSep (s : String) : String :=
  String.mk ((jsTrim s).data.filter (fun c => !(c == '.' || c == ',')))

/-- `parsePriceFromComplexElement(element)`: if dedicated whole and fraction
nodes exist, return the `parseFloat` of their concatenation directly (`NaN`
included — `some none`); else hand a non-empty offscreen text, else the
subtree's text, to `parseStringValue` (whose `null` is `none`).
Result: `none` = `null`, `some none` = `NaN`, `some (some q)` = `q`. -/
def parsePriceFromComplexElement (el : DNode) : Option JsNum :=
  match qselFirst (fun i => i.hasClass "a-price-whole") el,
        qselFirst (fun i => i.hasClass "a-price-fraction") el with
  | some w, some f =>
      some (jsParseFloat (stripGroupSep (textContent w) ++ "." ++ jsTrim (textContent f)))
  | _, _ =>
    match qselFirst (fun i => i.hasClass "a-offscreen") el with
    | some o =>
        if (textContent o).length > 0 then (parseStringValue (textContent o)).map some
        else (parseStringValue (textContent el)).map some
    | none => (parseStringValue (textContent el)).map some

/-! ## ConversionScanner: `runConversionPass` -/

/-- Result of a pass: the document, plus (as instrumentation) the
identifiers of the candidates for which a hint was created, in order. -/
structure PassOut where
  dom : DNode
  hinted : List Nat

/-- `markProcessed(el)`: add the `apc-processed` marker class. -/
def markProcessed (d : DNode) (n : Nat) : DNode := addClassById n "apc-processed" d

/-- Selector of group 1: `.a-price:not(.apc-processed)`. -/
def priceWidgetSel (i : EInfo) : Bool :=
  i.hasClass "a-price" && !(i.hasClass "apc-processed")

/-- Selector of group 2: `[data-csa-c-delivery-price]:not(.apc-processed)`. -/
def deliveryBadgeSel (i : EInfo) : Bool :=
  (i.getAttr "data-csa-c-delivery-price").isSome && !(i.hasClass "apc-processed")

/-- Selector of group 3: `.sc-price, .ewc-subtotal-amount, .ewc-unit-price`
(no `:not` — this group post-filters with `isProcessed`). -/
def cartRowSel (i : EInfo) : Bool :=
  i.hasClass "sc-price" || i.hasClass "ewc-subtotal-amount" || i.hasClass "ewc-unit-price"

/-- One iteration of group 1: extract from the live container; on a non-null
value, insert the hint inside the container (struck-through `a-text-price`
style) or after it as a sibling, and mark the container processed. -/
def priceWidgetStep (fmt : JsNum → String) (rate : ℚ) (st : PassOut) (n : Nat) : PassOut :=
  match getById n st.dom with
  | some (.elem i cs) =>
      match parsePriceFromComplexElement (.elem i cs) with
      | some v =>
          let hint := mkHintNode fmt v rate
          let d1 :=
            if i.hasClass "a-text-price" then appendChildById n hint st.dom
            else insertAfterById n hint st.dom
          { dom := markProcessed d1 n, hinted := st.hinted ++ [n] }
      | none => st
  | _ => st

/-- One iteration of group 2: read the delivery-price data attribute, skip
conversion for a falsy value or a case-insensitive `FREE`, insert the hint
into the bold child's parent (else the badge), and mark the badge processed
in every case. -/
def deliveryBadgeStep (fmt : JsNum → String) (rate : ℚ) (st : PassOut) (n : Nat) : PassOut :=
  match getById n st.dom with
  | some (.elem i cs) =>
      let conv : Option ℚ :=
        match i.getAttr "data-csa-c-delivery-price" with
        | some s => if s ≠ "" ∧ jsToUpper s ≠ "FREE" then parseStringValue s else none
        | none => none
      match conv with
      | some q =>
          let hint := mkHintNode fmt (some q) rate
          let tgt :=
            match parentOfMatchL (fun j => j.hasClass "a-text-bold") i.nid cs with
            | some (some pn) => pn
            | _ => n
          { dom := markProcessed (appendChildById tgt hint st.dom) n,
            hinted := st.hinted ++ [n] }
      | none => { dom := markProcessed st.dom n, hinted := st.hinted }
  | _ => st

/-- One iteration of group 3: skip already-processed rows, parse the text of
the `h2` sub-heading (else the row itself), append the hint there and mark
the row processed on success. -/
def cartRowStep (fmt : JsNum → String) (rate : ℚ) (st : PassOut) (n : Nat) : PassOut :=
  match getById n st.dom with
  | some (.elem i cs) =>
      if i.hasClass "apc-processed" then st
      else
        let tgtEl := (qselFirst (fun j => j.tag == "h2") (.elem i cs)).getD (.elem i cs)
        match parseStringValue (textContent tgtEl) with
        | some q =>
            let hint := mkHintNode fmt (some q) rate
            let tgtN :=
              match tgtEl with
              | .elem j _ => j.nid.getD n
              | .text _ => n
            { dom := markProcessed (appendChildById tgtN hint st.dom) n,
              hinted := st.hinted ++ [n] }
        | none => st
  | _ => st

/-- `runConversionPass(rate)`: no-op when disabled; otherwise the three
groups run to completion in order, each over a static snapshot taken from
the document as it stands when the group starts, with live lookups and
mutations inside the group. -/
def runConversionPass (enabled : Bool) (fmt : JsNum → String) (rate : ℚ)
    (dom : DNode) : PassOut :=
  match enabled with
  | false => ⟨dom, []⟩
  | true =>
    let s1 := (collectIds priceWidgetSel dom).foldl (priceWidgetStep fmt rate) ⟨dom, []⟩
    let s2 := (collectIds deliveryBadgeSel s1.dom).foldl (deliveryBadgeStep fmt rate) s1
    let s3 := (collectIds cartRowSel s2.dom).foldl (cartRowStep fmt rate) s2
    s3

/-- The tail of `init()` relevant to one conversion cycle: obtain
`CURRENT_RATE = await getExchangeRate(...)`, then
`if (SETTINGS.enabled) runConversionPass(CURRENT_RATE || 0)` — on `ℚ` the
`|| 0` is the identity, since `0 || 0` is `0`. -/
def initConversion (enabled : Bool) (fmt : JsNum → String) (b t : String) (now : Int)
    (st : FxStore) (resp : FetchResponse) (dom : DNode) : DNode :=
  let rate := (getExchangeRate b t now st resp).1
  if enabled then (runConversionPass enabled fmt rate dom).dom else dom

/-! ### C9 -/

/-- C9: with the enabled setting false, `runConversionPass` is a no-op: the
document is returned entirely unchanged and no candidate is hinted (the
model's reads are pure, so "no DOM mutation" is the observable content of
"no DOM is touched"). -/
theorem runConversionPass_disabled_noop (fmt : JsNum → String) (rate : ℚ) (dom : DNode) :
    runConversionPass false fmt rate dom = ⟨dom, []⟩ := rfl

/-! ### C2 -/

/-- A structured price block whose whole/fraction texts do not parse. -/
def nanPriceEl : DNode :=
  .elem ⟨some 10, "span", ["a-price"], []⟩ [
    .elem ⟨some 11, "span", ["a-price-whole"], []⟩ [.text "ab"],
    .elem ⟨some 12, "span", ["a-price-fraction"], []⟩ [.text "cd"]]

/-- C2 counterexample: on a block with dedicated whole and fraction nodes
whose texts do not parse, no strategy yields a finite numeric value (the
structured path gives `NaN`, there is no offscreen node, and the raw text is
unparseable), yet the extractor returns `NaN` (`some none`), not null
(`none`). -/
theorem parsePrice_nan_counterexample :
    parsePriceFromComplexElement nanPriceEl = some none ∧
      parseStringValue (textContent nanPriceEl) = none ∧
      some (none : JsNum) ≠ (none : Option JsNum) :=
  ⟨by decide, by decide, by decide⟩

/-- The whole/fraction text pair when both dedicated nodes exist. -/
def wfTexts (el : DNode) : Option (String × String) :=
  match qselFirst (fun i => i.hasClass "a-price-whole") el,
        qselFirst (fun i => i.hasClass "a-price-fraction") el with
  | some w, some f => some (textContent w, textContent f)
  | _, _ => none

/-- The text the string parser receives on the non-structured paths: a
non-empty offscreen text, else the subtree's text. -/
def fallbackText (el : DNode) : String :=
  match qselFirst (fun i => i.hasClass "a-offscreen") el with
  | some o => if (textContent o).length > 0 then textContent o else textContent el
  | none => textContent el

/-- `parsePriceFromComplexElement` characterized through the selected
strategy: the structured concatenation when the whole/fraction pair exists,
else the string parser on the selected fallback text. -/
theorem parsePrice_characterization (el : DNode) :
    parsePriceFromComplexElement el =
      (match wfTexts el with
       | some (w, f) => some (jsParseFloat (stripGroupSep w ++ "." ++ jsTrim f))
       | none => (parseStringValue (fallbackText el)).map some) := by
  unfold parsePriceFromComplexElement wfTexts fallbackText
  rcases hw : qselFirst (fun i => i.hasClass "a-price-whole") el with _ | w <;>
    rcases hf : qselFirst (fun i => i.hasClass "a-price-fraction") el with _ | f <;>
    dsimp only <;> (try rfl) <;>
    (rcases ho : qselFirst (fun i => i.hasClass "a-offscreen") el with _ | o <;>
      dsimp only <;> (try rfl) <;> (split <;> rfl))

/-- C2 (amended): the extractor's strategy choice is structural — by node
existence, not by parse success.  When whole and fraction nodes exist, the
`parseFloat` of their concatenation is returned directly (never null, `NaN`
included, with no fallback to the other strategies); otherwise the string
parser's result on the selected text is returned (possibly null, with no
fallback from a non-empty offscreen to the raw text); hence null is returned
exactly when no whole/fraction pair exists and the selected text fails to
parse. -/
theorem parsePriceFromComplexElement_structural (el : DNode) :
    (∀ w f, wfTexts el = some (w, f) →
      parsePriceFromComplexElement el =
          some (jsParseFloat (stripGroupSep w ++ "." ++ jsTrim f)) ∧
        parsePriceFromComplexElement el ≠ none) ∧
    (wfTexts el = none →
      parsePriceFromComplexElement el = (parseStringValue (fallbackText el)).map some) ∧
    (parsePriceFromComplexElement el = none ↔
      wfTexts el = none ∧ parseStringValue (fallbackText el) = none) := by
  have hc := parsePrice_characterization el
  refine ⟨?_, ?_, ?_⟩
  · intro w f h
    rw [h] at hc
    dsimp only at hc
    exact ⟨hc, by rw [hc]; simp⟩
  · intro h
    rw [h] at hc
    exact hc
  · constructor
    · intro h0
      rcases hw : wfTexts el with _ | p
      · rw [hw] at hc
        rw [h0] at hc
        exact ⟨rfl, by simpa using hc.symm⟩
      · rcases p with ⟨w, f⟩
        rw [hw] at hc
        dsimp only at hc
        rw [h0] at hc
        exact absurd hc.symm (by simp)
    · rintro ⟨h1, h2⟩
      rw [h1] at hc
      rw [hc, h2]
      rfl

/-- A structured price block with whole `12` and fraction `99`. -/
def structPriceEl : DNode :=
  .elem ⟨some 20, "span", ["a-price"], []⟩ [
    .elem ⟨some 21, "span", ["a-price-whole"], []⟩ [.text "12"],
    .elem ⟨some 22, "span", ["a-price-fraction"], []⟩ [.text "99"]]

/-- Witness for C2 at a concrete structured block. -/
theorem parsePriceFromComplexElement_structural_witness :
    parsePriceFromComplexElement structPriceEl =
      some (jsParseFloat (stripGroupSep "12" ++ "." ++ jsTrim "99")) :=
  ((parsePriceFromComplexElement_structural structPriceEl).1 "12" "99" (by decide)).1

/-! ### C7 -/

/-- Concrete formatter for evaluations: decimal digits of the numerator (the
concrete values used are integers) plus the HUF suffix; `NaN` formats as the
string `NaN` as `Intl.NumberFormat` does.  Grouping separators are elided —
only the presence of digits matters to the theorems using it. -/
def decFmt : JsNum → String
  | none => "NaN Ft"
  | some q => toString q.num ++ " Ft"

/-- A page with one standard price widget carrying an offscreen price. -/
def zeroRateDom : DNode :=
  .elem ⟨some 1, "div", [], []⟩ [
    .elem ⟨some 2, "div", ["a-price"], []⟩ [
      .elem ⟨some 3, "span", ["a-offscreen"], []⟩ [.text "5"]]]

/-- C7 (code bug): with settings enabled and a failing fetch, the rate is
the sentinel 0, yet `init` still calls
`runConversionPass(CURRENT_RATE || 0)` — the guard its own comment announces
("… else skip.") is an empty `if` — and a hint is rendered from
`amount * 0`.  The legacy script's `init` has the intended
`if (!currentRate) return;`. -/
theorem init_renders_hint_with_zero_rate :
    (getExchangeRate "EUR" "HUF" 0 ⟨[], []⟩ .netError).1 = 0 ∧
      countHints zeroRateDom = 0 ∧
      countHints (initConversion true decFmt "EUR" "HUF" 0 ⟨[], []⟩ .netError zeroRateDom) = 1 :=
  ⟨by decide, by decide, by decide⟩

/-! ### C10 -/

/-- C10: the rendered hint's styling is a function of the tier signals
alone.  For any two context elements with the same explicit `data-a-size`
value, the same membership in each of the five size classes, the same
membership in the primary price-display region, and the same
secondary/struck-through `a-text-price` class, `createHintElement` produces
the same font size and the same left margin (for any amount and rate). -/
theorem createHintElement_tier_determinism (fmt : JsNum → String) (v : JsNum) (rate : ℚ)
    (a1 a2 : Option String) (cls1 cls2 : List String) (p1 p2 : Bool)
    (ha : a1 = a2) (hp : p1 = p2)
    (hxl : cls1.contains "a-size-xl" = cls2.contains "a-size-xl")
    (hl : cls1.contains "a-size-large" = cls2.contains "a-size-large")
    (hm : cls1.contains "a-size-medium" = cls2.contains "a-size-medium")
    (hs : cls1.contains "a-size-small" = cls2.contains "a-size-small")
    (hmini : cls1.contains "a-size-mini" = cls2.contains "a-size-mini")
    (htp : cls1.contains "a-text-price" = cls2.contains "a-text-price") :
    (createHintElement fmt v rate a1 cls1 p1).fontSize =
        (createHintElement fmt v rate a2 cls2 p2).fontSize ∧
      (createHintElement fmt v rate a1 cls1 p1).marginLeft =
        (createHintElement fmt v rate a2 cls2 p2).marginLeft := by
  subst ha hp
  simp only [createHintElement]
  rw [hxl, hl, hm, hs, hmini, htp]
  exact ⟨rfl, rfl⟩

/-- Witness for C10: two elements with different class lists but identical
tier signals get the same font size and margin. -/
theorem createHintElement_tier_determinism_witness :
    (createHintElement decFmt (some 1) 400 none ["a-size-large"] false).fontSize =
        (createHintElement decFmt (some 1) 400 none ["foo", "a-size-large"] false).fontSize ∧
      (createHintElement decFmt (some 1) 400 none ["a-size-large"] false).marginLeft =
        (createHintElement decFmt (some 1) 400 none ["foo", "a-size-large"] false).marginLeft :=
  createHintElement_tier_determinism decFmt (some 1) 400 none none
    ["a-size-large"] ["foo", "a-size-large"] false false rfl rfl
    (by decide) (by decide) (by decide) (by decide) (by decide) (by decide)

/-! ### C6 -/

/-- A page where a delivery badge (group 2) sits inside a price widget
(group 1): the widget's text is empty, so its extraction fails on the first
pass and it stays unmarked. -/
def nestedDom : DNode :=
  .elem ⟨some 1, "div", [], []⟩ [
    .elem ⟨some 2, "div", ["a-price"], []⟩ [
      .elem ⟨some 3, "div", [], [("data-csa-c-delivery-price", "5")]⟩ []]]

/-- C6 counterexample: running the pass twice with no external DOM change
adds a hint node on the second call.  The first pass hints only the badge
(one hint); the badge's hint text contains digits, so on the second pass the
still-unmarked enclosing `.a-price` widget's text parses and a second hint
is inserted. -/
theorem runConversionPass_not_idempotent :
    countHints (runConversionPass true decFmt 400 nestedDom).dom = 1 ∧
      countHints
        (runConversionPass true decFmt 400
          (runConversionPass true decFmt 400 nestedDom).dom).dom = 2 :=
  ⟨by decide, by decide⟩

/-! ### Tree lemmas for the idempotence analysis (C6) -/

theorem infosL_append : ∀ a b : List DNode, infosL (a ++ b) = infosL a ++ infosL b := by
  intro a b
  induction a with
  | nil => simp [infosL]
  | cons c cs ih => simp [infosL, ih]

mutual

theorem infos_addClassById (n : Nat) (c : String) : ∀ d : DNode,
    infos (addClassById n c d) =
      (infos d).map (fun i => if i.nid = some n then addCls c i else i)
  | .text _ => rfl
  | .elem i cs => by
      simp [addClassById, infos, infosL_addClassByIdL n c cs]

theorem infosL_addClassByIdL (n : Nat) (c : String) : ∀ ds : List DNode,
    infosL (addClassByIdL n c ds) =
      (infosL ds).map (fun i => if i.nid = some n then addCls c i else i)
  | [] => rfl
  | d :: ds => by
      simp [addClassByIdL, infosL, infos_addClassById n c d, infosL_addClassByIdL n c ds]

end

mutual

theorem mem_infos_appendChildById (n : Nat) (h : DNode) : ∀ d : DNode,
    ∀ i ∈ infos (appendChildById n h d), i ∈ infos d ∨ i ∈ infos h
  | .text s => by simp [appendChildById, infos]
  | .elem j cs => by
      intro i hi
      simp only [appendChildById, infos, List.mem_cons] at hi
      rcases hi with hi | hi
      · exact Or.inl (by simp [infos, hi])
      · by_cases hj : j.nid = some n
      
        · rw [if_pos hj, infosL_append] at hi
          rcases List.mem_append.mp hi with hi | hi
          · rcases mem_infosL_appendChildByIdL n h cs i hi with h1 | h1
            · exact Or.inl (by simp [infos, h1])
            · exact Or.inr h1
          · simp only [infosL, List.append_nil] at hi
            exact Or.inr hi
        · rw [if_neg hj] at hi
          rcases mem_infosL_appendChildByIdL n h cs i hi with h1 | h1
          · exact Or.inl (by simp [infos, h1])
          · exact Or.inr h1

theorem mem_infosL_appendChildByIdL (n : Nat) (h : DNode) : ∀ ds : List DNode,
    ∀ i ∈ infosL (appendChildByIdL n h ds), i ∈ infosL ds ∨ i ∈ infos h
  | [] => by simp [appendChildByIdL, infosL]
  | d :: ds => by
      intro i hi
      simp only [appendChildByIdL, infosL, List.mem_append] at hi
      rcases hi with hi | hi
      · rcases mem_infos_appendChildById n h d i hi with h1 | h1
        · exact Or.inl (by simp [infosL, List.mem_append, h1])
        · exact Or.inr h1
      · rcases mem_infosL_appendChildByIdL n h ds i hi with h1 | h1
        · exact Or.inl (by simp [infosL, List.mem_append, h1])
        · exact Or.inr h1

end

mutual

theorem mem_infos_insertAfterById (n : Nat) (h : DNode) : ∀ d : DNode,
    ∀ i ∈ infos (insertAfterById n h d), i ∈ infos d ∨ i ∈ infos h
  | .text s => by simp [insertAfterById, infos]
  | .elem j cs => by
      intro i hi
      by_cases hj : j.nid = some n
      · simp only [insertAfterById, if_pos hj, infos, List.mem_cons, infosL_append] at hi
        rcases hi with hi | hi
        · exact Or.inl (by simp [infos, hi])
        · rcases List.mem_append.mp hi with hi | hi
          · exact Or.inl (by simp [infos, hi])
          · simp only [infosL, List.append_nil] at hi
            exact Or.inr hi
      · simp only [insertAfterById, if_neg hj, infos, List.mem_cons] at hi
        rcases hi with hi | hi
        · exact Or.inl (by simp [infos, hi])
        · rcases mem_infosL_insertAfterByIdL n h cs i hi with h1 | h1
          · exact Or.inl (by simp [infos, h1])
          · exact Or.inr h1

theorem mem_infosL_insertAfterByIdL (n : Nat) (h : DNode) : ∀ ds : List DNode,
    ∀ i ∈ infosL (insertAfterByIdL n h ds), i ∈ infosL ds ∨ i ∈ infos h
  | [] => by simp [insertAfterByIdL, infosL]
  | d :: ds => by
      intro i hi
      by_cases hd : isElemWithId d n
      · simp only [insertAfterByIdL, if_pos hd, infosL, List.mem_append, List.mem_cons] at hi
        rcases hi with hi | hi | hi
        · rcases mem_infos_insertAfterInChildren n h d i hi with h1 | h1
          · exact Or.inl (by simp [infosL, List.mem_append, h1])
          · exact Or.inr h1
        · exact Or.inr hi
        · rcases mem_infosL_insertAfterByIdL n h ds i hi with h1 | h1
          · exact Or.inl (by simp [infosL, List.mem_append, h1])
          · exact Or.inr h1
      · simp only [insertAfterByIdL, if_neg hd, infosL, List.mem_append] at hi
        rcases hi with hi | hi
        · rcases mem_infos_insertAfterInChildren n h d i hi with h1 | h1
          · exact Or.inl (by simp [infosL, List.mem_append, h1])
          · exact Or.inr h1
        · rcases mem_infosL_insertAfterByIdL n h ds i hi with h1 | h1
          · exact Or.inl (by simp [infosL, List.mem_append, h1])
          · exact Or.inr h1

theorem mem_infos_insertAfterInChildren (n : Nat) (h : DNode) : ∀ d : DNode,
    ∀ i ∈ infos (insertAfterInChildren n h d), i ∈ infos d ∨ i ∈ infos h
  | .text s => by simp [insertAfterInChildren, infos]
  | .elem j cs => by
      intro i hi
      simp only [insertAfterInChildren, infos, List.mem_cons] at hi
      rcases hi with hi | hi
      · exact Or.inl (by simp [infos, hi])
      · rcases mem_infosL_insertAfterByIdL n h cs i hi with h1 | h1
        · exact Or.inl (by simp [infos, h1])
        · exact Or.inr h1

end

mutual

theorem getById_shape (n : Nat) : ∀ d : DNode, ∀ e, getById n d = some e →
    ∃ i cs, e = DNode.elem i cs ∧ i.nid = some n ∧ i ∈ infos d
  | .text s => by simp [getById]
  | .elem j cs => by
      intro e he
      by_cases hj : j.nid = some n
      · rw [getById, if_pos hj] at he
        cases he
        exact ⟨j, cs, rfl, hj, by simp [infos]⟩
      · rw [getById, if_neg hj] at he
        rcases getByIdL_shape n cs e he with ⟨i, cs', rfl, hnid, hmem⟩
        exact ⟨i, cs', rfl, hnid, by simp [infos, hmem]⟩

theorem getByIdL_shape (n : Nat) : ∀ ds : List DNode, ∀ e, getByIdL n ds = some e →
    ∃ i cs, e = DNode.elem i cs ∧ i.nid = some n ∧ i ∈ infosL ds
  | [] => by simp [getByIdL]
  | d :: ds => by
      intro e he
      rw [getByIdL] at he
      rcases hg : getById n d with _ | e'
      · rw [hg] at he
        rcases getByIdL_shape n ds e he with ⟨i, cs', rfl, hnid, hmem⟩
        exact ⟨i, cs', rfl, hnid, by simp [infosL, List.mem_append, hmem]⟩
      · rw [hg] at he
        cases he
        rcases getById_shape n d _ hg with ⟨i, cs', rfl, hnid, hmem⟩
        exact ⟨i, cs', rfl, hnid, by simp [infosL, List.mem_append, hmem]⟩

end

/-- Snapshot membership: an identifier is collected exactly when some
element with that identifier satisfies the selector. -/
theorem mem_collectIds {p : EInfo → Bool} {d : DNode} {n : Nat} :
    n ∈ collectIds p d ↔ ∃ i ∈ infos d, p i = true ∧ i.nid = some n := by
  unfold collectIds
  simp only [List.mem_filterMap, List.mem_filter]
  constructor
  · rintro ⟨i, ⟨hi, hp⟩, hn⟩
    exact ⟨i, hi, hp, hn⟩
  · rintro ⟨i, hi, hp, hn⟩
    exact ⟨i, ⟨hi, hp⟩, hn⟩

/-- Every element carrying identifier `n` bears the processed marker.  On a
document with unique identifiers (DOM reference identity) this is exactly
"the element `n` is marked". -/
def allMarked (n : Nat) (d : DNode) : Prop :=
  ∀ i ∈ infos d, i.nid = some n → i.hasClass "apc-processed" = true

theorem addCls_nid (c : String) (i : EInfo) : (addCls c i).nid = i.nid := rfl

theorem addCls_hasClass_self (c : String) (i : EInfo) : (addCls c i).hasClass c = true := by
  unfold addCls EInfo.hasClass
  dsimp only
  by_cases h : i.classes.contains c
  · rwa [if_pos h]
  · rw [if_neg h]
    simp [List.contains, List.elem_eq_mem]

theorem addCls_hasClass_mono {x : String} (c : String) (i : EInfo)
    (h : i.hasClass x = true) : (addCls c i).hasClass x = true := by
  unfold EInfo.hasClass at h
  unfold addCls EInfo.hasClass
  dsimp only
  by_cases hc : i.classes.contains c
  · rwa [if_pos hc]
  · rw [if_neg hc]
    simp only [List.contains, List.elem_eq_mem, decide_eq_true_iff] at h ⊢
    simp [h]

theorem allMarked_addClassById {x : Nat} {d : DNode} (n : Nat) (c : String)
    (h : allMarked x d) : allMarked x (addClassById n c d) := by
  intro i hi hx
  rw [infos_addClassById] at hi
  rcases List.mem_map.mp hi with ⟨j, hj, rfl⟩
  by_cases hjn : j.nid = some n
  · rw [if_pos hjn] at hx ⊢
    rw [addCls_nid] at hx
    exact addCls_hasClass_mono c j (h j hj hx)
  · rw [if_neg hjn] at hx ⊢
    exact h j hj hx

theorem allMarked_markProcessed_self (d : DNode) (n : Nat) :
    allMarked n (markProcessed d n) := by
  intro i hi hx
  unfold markProcessed at hi
  rw [infos_addClassById] at hi
  rcases List.mem_map.mp hi with ⟨j, hj, rfl⟩
  by_cases hjn : j.nid = some n
  · rw [if_pos hjn]
    exact addCls_hasClass_self _ _
  · rw [if_neg hjn] at hx
    exact absurd hx hjn

theorem infos_mkHintNode (fmt : JsNum → String) (v : JsNum) (rate : ℚ) :
    infos (mkHintNode fmt v rate) = [⟨none, "span", ["apc-tag"], []⟩] := rfl

theorem allMarked_appendHint {x : Nat} {d : DNode} (m : Nat)
    (fmt : JsNum → String) (v : JsNum) (rate : ℚ) (h : allMarked x d) :
    allMarked x (appendChildById m (mkHintNode fmt v rate) d) := by
  intro i hi hx
  rcases mem_infos_appendChildById m (mkHintNode fmt v rate) d i hi with h1 | h1
  · exact h i h1 hx
  · rw [infos_mkHintNode] at h1
    simp only [List.mem_singleton] at h1
    subst h1
    cases hx

theorem allMarked_insertHint {x : Nat} {d : DNode} (m : Nat)
    (fmt : JsNum → String) (v : JsNum) (rate : ℚ) (h : allMarked x d) :
    allMarked x (insertAfterById m (mkHintNode fmt v rate) d) := by
  intro i hi hx
  rcases mem_infos_insertAfterById m (mkHintNode fmt v rate) d i hi with h1 | h1
  · exact h i h1 hx
  · rw [infos_mkHintNode] at h1
    simp only [List.mem_singleton] at h1
    subst h1
    cases hx

theorem ne_append_singleton {l : List Nat} {m : Nat} : l ≠ l ++ [m] := by
  intro h
  have := congrArg List.length h
  simp at this

/-! ### Step lemmas -/

theorem priceWidgetStep_marked_mono (fmt : JsNum → String) (rate : ℚ) (st : PassOut)
    (m x : Nat) (h : allMarked x st.dom) :
    allMarked x (priceWidgetStep fmt rate st m).dom := by
  unfold priceWidgetStep
  rcases hg : getById m st.dom with _ | e
  · exact h
  · rcases e with s | ⟨i, cs⟩
    · exact h
    · dsimp only
      rcases hp : parsePriceFromComplexElement (.elem i cs) with _ | v
      · exact h
      · dsimp only
        by_cases hc : i.hasClass "a-text-price"
      
        · rw [if_pos hc]
          exact allMarked_addClassById _ _ (allMarked_appendHint _ _ _ _ h)
        · rw [if_neg hc]
          exact allMarked_addClassById _ _ (allMarked_insertHint _ _ _ _ h)

theorem deliveryBadgeStep_marked_mono (fmt : JsNum → String) (rate : ℚ) (st : PassOut)
    (m x : Nat) (h : allMarked x st.dom) :
    allMarked x (deliveryBadgeStep fmt rate st m).dom := by
  unfold deliveryBadgeStep
  rcases hg : getById m st.dom with _ | e
  · exact h
  · rcases e with s | ⟨i, cs⟩
    · exact h
    · dsimp only
      rcases hconv : (match i.getAttr "data-csa-c-delivery-price" with
        | some s => if s ≠ "" ∧ jsToUpper s ≠ "FREE" then parseStringValue s else none
        | none => none) with _ | q
      · rw [hconv]
        exact allMarked_addClassById _ _ h
      · rw [hconv]
        exact allMarked_addClassById _ _ (allMarked_appendHint _ _ _ _ h)

theorem cartRowStep_marked_mono (fmt : JsNum → String) (rate : ℚ) (st : PassOut)
    (m x : Nat) (h : allMarked x st.dom) :
    allMarked x (cartRowStep fmt rate st m).dom := by
  unfold cartRowStep
  rcases hg : getById m st.dom with _ | e
  · exact h
  · rcases e with s | ⟨i, cs⟩
    · exact h
    · dsimp only
      by_cases hproc : i.hasClass "apc-processed"
      · rw [if_pos hproc]
        exact h
      · rw [if_neg hproc]
        rcases hp : parseStringValue (textContent
            ((qselFirst (fun j => j.tag == "h2") (.elem i cs)).getD (.elem i cs))) with _ | q
        · exact h
        · dsimp only
          exact allMarked_addClassById _ _ (allMarked_appendHint _ _ _ _ h)

theorem priceWidgetStep_hinted (fmt : JsNum → String) (rate : ℚ) (st : PassOut) (m : Nat) :
    (priceWidgetStep fmt rate st m).hinted = st.hinted ∨
      (priceWidgetStep fmt rate st m).hinted = st.hinted ++ [m] := by
  unfold priceWidgetStep
  repeat' first
    | exact Or.inl rfl
    | exact Or.inr rfl
    | split
    | dsimp only

theorem deliveryBadgeStep_hinted (fmt : JsNum → String) (rate : ℚ) (st : PassOut) (m : Nat) :
    (deliveryBadgeStep fmt rate st m).hinted = st.hinted ∨
      (deliveryBadgeStep fmt rate st m).hinted = st.hinted ++ [m] := by
  unfold deliveryBadgeStep
  repeat' first
    | exact Or.inl rfl
    | exact Or.inr rfl
    | split
    | dsimp only

theorem cartRowStep_hinted (fmt : JsNum → String) (rate : ℚ) (st : PassOut) (m : Nat) :
    (cartRowStep fmt rate st m).hinted = st.hinted ∨
      (cartRowStep fmt rate st m).hinted = st.hinted ++ [m] := by
  unfold cartRowStep
  repeat' first
    | exact Or.inl rfl
    | exact Or.inr rfl
    | split
    | dsimp only

theorem priceWidgetStep_estab (fmt : JsNum → String) (rate : ℚ) (st : PassOut) (m : Nat)
    (h : (priceWidgetStep fmt rate st m).hinted = st.hinted ++ [m]) :
    allMarked m (priceWidgetStep fmt rate st m).dom := by
  unfold priceWidgetStep at h ⊢
  revert h
  repeat' first
    | (intro h; exact absurd h ne_append_singleton)
    | (intro _; exact allMarked_markProcessed_self _ _)
    | split
    | dsimp only

theorem deliveryBadgeStep_estab (fmt : JsNum → String) (rate : ℚ) (st : PassOut) (m : Nat)
    (h : (deliveryBadgeStep fmt rate st m).hinted = st.hinted ++ [m]) :
    allMarked m (deliveryBadgeStep fmt rate st m).dom := by
  unfold deliveryBadgeStep at h ⊢
  revert h
  repeat' first
    | (intro h; exact absurd h ne_append_singleton)
    | (intro _; exact allMarked_markProcessed_self _ _)
    | split
    | dsimp only

theorem cartRowStep_estab (fmt : JsNum → String) (rate : ℚ) (st : PassOut) (m : Nat)
    (h : (cartRowStep fmt rate st m).hinted = st.hinted ++ [m]) :
    allMarked m (cartRowStep fmt rate st m).dom := by
  unfold cartRowStep at h ⊢
  revert h
  repeat' first
    | (intro h; exact absurd h ne_append_singleton)
    | (intro _; exact allMarked_markProcessed_self _ _)
    | split
    | dsimp only

theorem cartRowStep_skip (fmt : JsNum → String) (rate : ℚ) (st : PassOut) (m : Nat)
    (h : allMarked m st.dom) : cartRowStep fmt rate st m = st := by
  unfold cartRowStep
  rcases hg : getById m st.dom with _ | e
  · rfl
  · rcases e with s | ⟨i, cs⟩
    · rfl
    · dsimp only
      rcases getById_shape m st.dom _ hg with ⟨i', cs', heq, hnid, hmem⟩
      cases heq
      rw [if_pos (h _ hmem hnid)]

/-! ### Fold lemmas -/

/-- Through a fold of a step that marks whatever it hints, every hinted
identifier is marked in the resulting document. -/
theorem foldl_hint_inv (step : PassOut → Nat → PassOut)
    (hmono : ∀ st m x, allMarked x st.dom → allMarked x (step st m).dom)
    (hchar : ∀ st m, (step st m).hinted = st.hinted ∨ (step st m).hinted = st.hinted ++ [m])
    (hestab : ∀ st m, (step st m).hinted = st.hinted ++ [m] → allMarked m (step st m).dom) :
    ∀ (l : List Nat) (st : PassOut),
      (∀ x ∈ st.hinted, allMarked x st.dom) →
      ∀ x ∈ (l.foldl step st).hinted, allMarked x (l.foldl step st).dom := by
  intro l
  induction l with
  | nil => intro st h; simpa using h
  | cons m ms ih =>
      intro st h
      refine ih (step st m) ?_
      intro x hx
      rcases hchar st m with hc | hc
      · rw [hc] at hx
        exact hmono st m x (h x hx)
      · rw [hc] at hx
        rcases List.mem_append.mp hx with hx | hx
        · exact hmono st m x (h x hx)
        · have hxm : x = m := by simpa using hx
          rw [hxm]
          exact hestab st m hc

/-- Through a fold over identifiers not containing `x`, a marked,
not-yet-hinted `x` stays marked and unhinted. -/
theorem foldl_marked_not_hinted_of_not_mem (step : PassOut → Nat → PassOut)
    (hmono : ∀ st m x, allMarked x st.dom → allMarked x (step st m).dom)
    (hchar : ∀ st m, (step st m).hinted = st.hinted ∨ (step st m).hinted = st.hinted ++ [m]) :
    ∀ (l : List Nat) (st : PassOut) (x : Nat), x ∉ l →
      allMarked x st.dom → x ∉ st.hinted →
      allMarked x (l.foldl step st).dom ∧ x ∉ (l.foldl step st).hinted := by
  intro l
  induction l with
  | nil => intro st x _ hm hh; exact ⟨hm, hh⟩
  | cons m ms ih =>
      intro st x hx hm hh
      have hxm : x ≠ m := fun he => hx (by simp [he])
      have hxms : x ∉ ms := fun he => hx (by simp [he])
      refine ih (step st m) x hxms (hmono st m x hm) ?_
      rcases hchar st m with hc | hc
      · rw [hc]; exact hh
      · rw [hc]
        intro hmem
        rcases List.mem_append.mp hmem with h1 | h1
        · exact hh h1
        · exact hxm (by simpa using h1)

/-- Through a fold of a step that skips marked identifiers, a marked,
not-yet-hinted `x` stays marked and unhinted (group 3, whose exclusion is a
post-filter rather than part of the query). -/
theorem foldl_marked_not_hinted_of_skip (step : PassOut → Nat → PassOut)
    (hmono : ∀ st m x, allMarked x st.dom → allMarked x (step st m).dom)
    (hchar : ∀ st m, (step st m).hinted = st.hinted ∨ (step st m).hinted = st.hinted ++ [m])
    (hskip : ∀ st m, allMarked m st.dom → step st m = st) :
    ∀ (l : List Nat) (st : PassOut) (x : Nat),
      allMarked x st.dom → x ∉ st.hinted →
      allMarked x (l.foldl step st).dom ∧ x ∉ (l.foldl step st).hinted := by
  intro l
  induction l with
  | nil => intro st x hm hh; exact ⟨hm, hh⟩
  | cons m ms ih =>
      intro st x hm hh
      by_cases hxm : m = x
      · rw [List.foldl_cons, hskip st m (by rw [hxm]; exact hm)]
        exact ih st x hm hh
      · refine ih (step st m) x (hmono st m x hm) ?_
        rcases hchar st m with hc | hc
        · rw [hc]; exact hh
        · rw [hc]
          intro hmem
          rcases List.mem_append.mp hmem with h1 | h1
          · exact hh h1
          · exact hxm (List.mem_singleton.mp h1).symm

/-! ### Pass-level lemmas -/

/-- Every candidate hinted by a pass is marked processed in the resulting
document. -/
theorem pass_hinted_marked (fmt : JsNum → String) (rate : ℚ) (dom : DNode) :
    ∀ x ∈ (runConversionPass true fmt rate dom).hinted,
      allMarked x (runConversionPass true fmt rate dom).dom := by
  have base : ∀ x ∈ (⟨dom, []⟩ : PassOut).hinted, allMarked x (⟨dom, []⟩ : PassOut).dom := by
    intro x hx
    exact absurd hx (by simp)
  have h1 := foldl_hint_inv (priceWidgetStep fmt rate)
    (priceWidgetStep_marked_mono fmt rate) (priceWidgetStep_hinted fmt rate)
    (priceWidgetStep_estab fmt rate) (collectIds priceWidgetSel dom)
    (⟨dom, []⟩ : PassOut) base
  have h2 := foldl_hint_inv (deliveryBadgeStep fmt rate)
    (deliveryBadgeStep_marked_mono fmt rate) (deliveryBadgeStep_hinted fmt rate)
    (deliveryBadgeStep_estab fmt rate)
    (collectIds deliveryBadgeSel
      ((collectIds priceWidgetSel dom).foldl (priceWidgetStep fmt rate)
        (⟨dom, []⟩ : PassOut)).dom)
    ((collectIds priceWidgetSel dom).foldl (priceWidgetStep fmt rate) (⟨dom, []⟩ : PassOut))
    h1
  have h3 := foldl_hint_inv (cartRowStep fmt rate)
    (cartRowStep_marked_mono fmt rate) (cartRowStep_hinted fmt rate)
    (cartRowStep_estab fmt rate)
    (collectIds cartRowSel
      ((collectIds deliveryBadgeSel
          ((collectIds priceWidgetSel dom).foldl (priceWidgetStep fmt rate)
            (⟨dom, []⟩ : PassOut)).dom).foldl (deliveryBadgeStep fmt rate)
        ((collectIds priceWidgetSel dom).foldl (priceWidgetStep fmt rate)
          (⟨dom, []⟩ : PassOut))).dom)
    ((collectIds deliveryBadgeSel
        ((collectIds priceWidgetSel dom).foldl (priceWidgetStep fmt rate)
          (⟨dom, []⟩ : PassOut)).dom).foldl (deliveryBadgeStep fmt rate)
      ((collectIds priceWidgetSel dom).foldl (priceWidgetStep fmt rate)
        (⟨dom, []⟩ : PassOut)))
    h2
  exact h3

/-- A marked element is excluded from the group-1 snapshot. -/
theorem marked_not_in_price_snapshot {x : Nat} {d : DNode} (h : allMarked x d) :
    x ∉ collectIds priceWidgetSel d := by
  intro hx
  rcases mem_collectIds.mp hx with ⟨i, hi, hsel, hnid⟩
  unfold priceWidgetSel at hsel
  rw [h i hi hnid] at hsel
  simp at hsel

/-- A marked element is excluded from the group-2 snapshot. -/
theorem marked_not_in_badge_snapshot {x : Nat} {d : DNode} (h : allMarked x d) :
    x ∉ collectIds deliveryBadgeSel d := by
  intro hx
  rcases mem_collectIds.mp hx with ⟨i, hi, hsel, hnid⟩
  unfold deliveryBadgeSel at hsel
  rw [h i hi hnid] at hsel
  simp at hsel

/-- An element marked before a pass receives no hint during the pass:
groups 1 and 2 exclude it at the query level, group 3 skips it at its
post-filter. -/
theorem pass_marked_not_hinted (fmt : JsNum → String) (rate : ℚ) (dom : DNode)
    (x : Nat) (hm : allMarked x dom) :
    x ∉ (runConversionPass true fmt rate dom).hinted := by
  have h1 := foldl_marked_not_hinted_of_not_mem (priceWidgetStep fmt rate)
    (priceWidgetStep_marked_mono fmt rate) (priceWidgetStep_hinted fmt rate)
    (collectIds priceWidgetSel dom) (⟨dom, []⟩ : PassOut) x
    (marked_not_in_price_snapshot hm) hm (show x ∉ (⟨dom, []⟩ : PassOut).hinted by simp)
  have h2 := foldl_marked_not_hinted_of_not_mem (deliveryBadgeStep fmt rate)
    (deliveryBadgeStep_marked_mono fmt rate) (deliveryBadgeStep_hinted fmt rate)
    (collectIds deliveryBadgeSel
      ((collectIds priceWidgetSel dom).foldl (priceWidgetStep fmt rate)
        (⟨dom, []⟩ : PassOut)).dom)
    ((collectIds priceWidgetSel dom).foldl (priceWidgetStep fmt rate) (⟨dom, []⟩ : PassOut))
    x (marked_not_in_badge_snapshot h1.1) h1.1 h1.2
  have h3 := foldl_marked_not_hinted_of_skip (cartRowStep fmt rate)
    (cartRowStep_marked_mono fmt rate) (cartRowStep_hinted fmt rate)
    (cartRowStep_skip fmt rate)
    (collectIds cartRowSel
      ((collectIds deliveryBadgeSel
          ((collectIds priceWidgetSel dom).foldl (priceWidgetStep fmt rate)
            (⟨dom, []⟩ : PassOut)).dom).foldl (deliveryBadgeStep fmt rate)
        ((collectIds priceWidgetSel dom).foldl (priceWidgetStep fmt rate)
          (⟨dom, []⟩ : PassOut))).dom)
    ((collectIds deliveryBadgeSel
        ((collectIds priceWidgetSel dom).foldl (priceWidgetStep fmt rate)
          (⟨dom, []⟩ : PassOut)).dom).foldl (deliveryBadgeStep fmt rate)
      ((collectIds priceWidgetSel dom).foldl (priceWidgetStep fmt rate)
        (⟨dom, []⟩ : PassOut)))
    x h2.1 h2.2
  exact h3.2

/-- C6 (amended): every candidate that receives a hint in a pass carries the
processed marker afterwards, and a marked candidate is never hinted again by
a subsequent pass — groups 1 and 2 exclude it at the query level, group 3 at
its post-filter.  (Full DOM idempotence fails: an element whose extraction
failed in the first pass is left unmarked and may become parseable through
the digits of a hint inserted for another element, as
`runConversionPass_not_idempotent` shows.) -/
theorem runConversionPass_no_rehint (fmt : JsNum → String) (rate : ℚ) (dom : DNode)
    (n : Nat) (hn : n ∈ (runConversionPass true fmt rate dom).hinted) :
    allMarked n (runConversionPass true fmt rate dom).dom ∧
      n ∉ (runConversionPass true fmt rate
            (runConversionPass true fmt rate dom).dom).hinted := by
  have h1 := pass_hinted_marked fmt rate dom n hn
  exact ⟨h1, pass_marked_not_hinted fmt rate _ n h1⟩

/-- Witness for C6: on the nested page, the badge (identifier 3) hinted by
the first pass is marked and is not hinted by the second pass. -/
theorem runConversionPass_no_rehint_witness :
    allMarked 3 (runConversionPass true decFmt 400 nestedDom).dom ∧
      3 ∉ (runConversionPass true decFmt 400
            (runConversionPass true decFmt 400 nestedDom).dom).hinted :=
  runConversionPass_no_rehint decFmt 400 nestedDom 3 (by decide)
